import Mathlib

/-!
Shallow embedding of `solution_organise_dataset.py` (class `OrganiseDataset`).

Python strings are modelled as `List Char` (a Python `str` is a sequence of
code points, and Python's string comparison, `startswith`, `split`, `in` are
the corresponding character-sequence operations).  The filesystem is modelled
by the list of directory entries (`os.listdir`) and a map `imread` from file
names to optionally-decoded images (`cv2.imread` returns `None` on failure).
The external image-comparison collaborator (`imaging_interview.py`, not part
of this repository's engine) is a parameter: a `Comparator` record supplying
`preprocess_image_change_detection`, `.shape`, `cv2.resize` and
`compare_frames_change_detection` (only the score component is consumed).
Side effects of the removal pass (`os.remove`, `print`) are reified as an
event list.
-/

namespace OrganiseDataset

/-- A Python string: a sequence of characters. -/
abbrev PyStr := List Char

/-- Python `s.endswith(p)`: `p` is a suffix of `s`. -/
def endsWithL (s p : PyStr) : Bool := decide (p <:+ s)

/-- Python `s.startswith(p)`: `p` is an initial segment of `s`. -/
def startsWithL : PyStr → PyStr → Bool
  | _, [] => true
  | [], _ :: _ => false
  | a :: s, b :: p => a = b && startsWithL s p

/-- Python `s.split(c)[0]` for a one-character separator `c`: everything
before the first occurrence of `c` (the whole string if `c` is absent). -/
def takeUntilChar (c : Char) : PyStr → PyStr
  | [] => []
  | a :: s => if a = c then [] else a :: takeUntilChar c s

/-- The extension filter of the listing loop: `file.endswith(".png")`. -/
def isPng (f : PyStr) : Bool := endsWithL f ['.', 'p', 'n', 'g']

/-- `Image_files`: the `.png` entries of the folder, sorted ascending
(Python `sorted` on strings = lexicographic by code point; `List Char`
carries exactly that order). -/
def imageFilesOf (entries : List PyStr) : List PyStr :=
  List.insertionSort (· ≤ ·) (entries.filter isPng)

/-- The camera-id derivation of the second loop of `get_camera_id_indices`:
`file_name.split("-")[0]` if `"-" in file_name`, else `file_name.split("_")[0]`
if `"_" in file_name`, else the file contributes no camera id. -/
def cameraIdOf (f : PyStr) : Option PyStr :=
  if f.contains '-' then some (takeUntilChar '-' f)
  else if f.contains '_' then some (takeUntilChar '_' f)
  else none

/-- `sorted(camera_ids)`: the distinct derived camera ids, ascending. -/
def cameraIds (files : List PyStr) : List PyStr :=
  List.insertionSort (· ≤ ·) (files.filterMap cameraIdOf).dedup

/-- `[index for index, filename in enumerate(Image_files) if
filename.startswith(ids)]`. -/
def indicesFor (files : List PyStr) (id : PyStr) : List Nat :=
  files.enum.filterMap (fun p => if startsWithL p.2 id then some p.1 else none)

/-- `get_camera_id_indices`: the camera-id → index-list mapping (a Python
dict built by inserting the sorted camera ids in order, hence an association
list in that order) together with the sorted file list. -/
def get_camera_id_indices (entries : List PyStr) :
    List (PyStr × List Nat) × List PyStr :=
  let files := imageFilesOf entries
  ((cameraIds files).map (fun i => (i, indicesFor files i)), files)

/-- The external comparator capability used by `remove_duplicates`.
`preprocess` is `preprocess_image_change_detection (image, blur_radii)`;
`shape` is numpy `.shape` of a representation; `resize` is
`cv2.resize(rep, (w, h))` (the engine passes the candidate's dimensions);
`score` is the score component of
`compare_frames_change_detection (prev, next, min_contour_area)`. -/
structure Comparator (Image Rep : Type) where
  preprocess : Image → List Nat → Rep
  shape : Rep → Nat × Nat
  resize : Rep → Nat × Nat → Rep
  score : Rep → Rep → Int → Int

/-- One observable side effect of the removal pass. -/
inductive Event where
  | deleteFile : PyStr → Event
  | printLine : PyStr → Nat → Event
deriving DecidableEq, Repr

/-- One iteration of the inner loop of `remove_duplicates` at index `i`.
State: (`prev_frame` — `none` when the Python local is still unbound — and
`remove_indices`).  `cv2.imread` failure appends `i` and continues; the
`img_index == img_indices[0]` branch installs the frame as `prev_frame`;
otherwise the candidate is preprocessed and, if `prev_frame` is unbound,
Python raises `UnboundLocalError` (modelled as `Except.error`); else the
reference is resized on shape mismatch and the score decides: below
`min_score` the index is appended (the — possibly resized — reference kept),
otherwise the candidate becomes `prev_frame`. -/
def stepFrame {Image Rep : Type} (C : Comparator Image Rep)
    (imread : PyStr → Option Image) (blur : List Nat) (mca ms : Int)
    (files : List PyStr) (firstIdx : Nat)
    (st : Option Rep × List Nat) (i : Nat) :
    Except String (Option Rep × List Nat) :=
  match imread (files.getD i []) with
  | none => Except.ok (st.1, st.2 ++ [i])
  | some img =>
    if i = firstIdx then
      Except.ok (some (C.preprocess img blur), st.2)
    else
      let next := C.preprocess img blur
      match st.1 with
      | none => Except.error "UnboundLocalError: prev_frame"
      | some prev =>
        let prev' := if C.shape prev ≠ C.shape next
                     then C.resize prev (C.shape next) else prev
        if C.score prev' next mca < ms then
          Except.ok (some prev', st.2 ++ [i])
        else
          Except.ok (some next, st.2)

/-- The inner `for img_index in img_indices` loop, run from state `st` over
the remaining indices. -/
def scanFrames {Image Rep : Type} (C : Comparator Image Rep)
    (imread : PyStr → Option Image) (blur : List Nat) (mca ms : Int)
    (files : List PyStr) (firstIdx : Nat)
    (st : Option Rep × List Nat) :
    List Nat → Except String (Option Rep × List Nat)
  | [] => Except.ok st
  | i :: rest =>
    match stepFrame C imread blur mca ms files firstIdx st i with
    | Except.error e => Except.error e
    | Except.ok st' => scanFrames C imread blur mca ms files firstIdx st' rest

/-- The body run for one camera: `remove_indices = list()` then the inner
loop; `prev_frame` carries over from whatever preceded (it is a local of
`remove_duplicates`, never reset between cameras). -/
def scanCamera {Image Rep : Type} (C : Comparator Image Rep)
    (imread : PyStr → Option Image) (blur : List Nat) (mca ms : Int)
    (files : List PyStr) (idxs : List Nat) (prev : Option Rep) :
    Except String (Option Rep × List Nat) :=
  scanFrames C imread blur mca ms files (idxs.headD 0) (prev, []) idxs

/-- The outer `for camera_id, img_indices in camera_id_indices.items()` loop:
threads `prev_frame` across cameras and appends each camera's
`remove_indices` to `non_essential_data` (a dict with distinct keys inserted
in iteration order = an association list). -/
def scanCams {Image Rep : Type} (C : Comparator Image Rep)
    (imread : PyStr → Option Image) (blur : List Nat) (mca ms : Int)
    (files : List PyStr) (prev : Option Rep)
    (acc : List (PyStr × List Nat)) :
    List (PyStr × List Nat) → Except String (Option Rep × List (PyStr × List Nat))
  | [] => Except.ok (prev, acc)
  | cam :: rest =>
    match scanCamera C imread blur mca ms files cam.2 prev with
    | Except.error e => Except.error e
    | Except.ok (prev', rem) =>
      scanCams C imread blur mca ms files prev' (acc ++ [(cam.1, rem)]) rest

/-- `remove_ids`: for each camera delete each marked file
(`os.remove(folder/Image_files[img_index])`) counting deletions, then print
`In camera:<id> total <count> images are repeated.` — the count equals the
length of the camera's removal list. -/
def remove_ids (files : List PyStr) (data : List (PyStr × List Nat)) :
    List Event :=
  data.flatMap (fun p =>
    p.2.map (fun i => Event.deleteFile (files.getD i [])) ++
    [Event.printLine p.1 p.2.length])

/-- `remove_duplicates`: group, scan every camera, then (when
`non_essential_data` is non-empty — it has one entry per camera) run the
removal pass.  Returns the emitted side effects, or the uncaught Python
exception. -/
def remove_duplicates {Image Rep : Type} (C : Comparator Image Rep)
    (imread : PyStr → Option Image) (blur : List Nat) (mca ms : Int)
    (entries : List PyStr) : Except String (List Event) :=
  let grouped := get_camera_id_indices entries
  match scanCams C imread blur mca ms grouped.2 none [] grouped.1 with
  | Except.error e => Except.error e
  | Except.ok (_, ned) =>
    Except.ok (if ned.isEmpty then [] else remove_ids grouped.2 ned)

/-- The default tunables of the command-line entry point. -/
def defaultBlur : List Nat := [3, 5, 7]

/-- Default `min_contour_area`. -/
def defaultMca : Int := 2000

/-- Default `min_score`. -/
def defaultMs : Int := 25000

/-- The report lines among the emitted events, in order: the
`(camera id, count)` payload of each `print`. -/
def printsOf : List Event → List (PyStr × Nat)
  | [] => []
  | Event.printLine c n :: evs => (c, n) :: printsOf evs
  | Event.deleteFile _ :: evs => printsOf evs

/-- The deleted file names among the emitted events, in order. -/
def deletesOf : List Event → List PyStr
  | [] => []
  | Event.deleteFile f :: evs => f :: deletesOf evs
  | Event.printLine _ _ :: evs => deletesOf evs

/-- The grouping-partition property of the spec: every index below `n` (the
length of the sorted file list) lies in exactly one camera's index list, and
every listed index is below `n`. -/
def isPartitionBy (cams : List (PyStr × List Nat)) (n : Nat) : Prop :=
  (∀ i, i < n → cams.countP (fun pr => decide (i ∈ pr.2)) = 1) ∧
  ∀ pr ∈ cams, ∀ i ∈ pr.2, i < n

/-- A concrete comparator on `Nat`-coded images: representations are the
images themselves, every representation has the same shape, and the score is
`0` for identical representations and `30000` for different ones. -/
def cmpEqNat : Comparator Nat Nat where
  preprocess := fun i _ => i
  shape := fun _ => (1, 1)
  resize := fun r _ => r
  score := fun p n _ => if p = n then 0 else 30000

/-- A concrete comparator on `Nat`-coded images whose score is the constant
`k`. -/
def cmpConstNat (k : Int) : Comparator Nat Nat where
  preprocess := fun i _ => i
  shape := fun _ => (1, 1)
  resize := fun r _ => r
  score := fun _ _ _ => k

/-- A concrete filesystem: `a-1.png` decodes to `va`, `b-2.png` decodes to
`7`, and every other file (in particular `b-1.png`) fails to decode.  Two
instances with different `va` differ only in camera `a`'s file. -/
def readAB (va : Nat) : PyStr → Option Nat := fun f =>
  if f = "a-1.png".toList then some va
  else if f = "b-2.png".toList then some 7
  else none

/-- A concrete filesystem where only `a-2.png` decodes. -/
def readTail : PyStr → Option Nat := fun f =>
  if f = "a-2.png".toList then some 1 else none

/-- A concrete filesystem where `b-1.png` decodes to `9` and everything else
to `1`. -/
def readAllB9 : PyStr → Option Nat := fun f =>
  if f = "b-1.png".toList then some 9 else some 1

/-- Directory with camera `a` (one file) and camera `b` (two files). -/
def entriesAB : List PyStr :=
  ["a-1.png".toList, "b-1.png".toList, "b-2.png".toList]

/-- Directory with a single camera `a` and two files. -/
def entriesA2 : List PyStr := ["a-1.png".toList, "a-2.png".toList]

/-- Directory with camera `a` (three files) and camera `b` (one file). -/
def entriesRep : List PyStr :=
  ["a-1.png".toList, "a-2.png".toList, "a-3.png".toList, "b-1.png".toList]

/-- Directory with cameras `c1` and `c10`, one file each, consistently
separated by `-`. -/
def entriesC4 : List PyStr := ["c1-a.png".toList, "c10-b.png".toList]

/-- Directory with one separated file (camera `f`) and one file containing
no separator at all. -/
def entriesNoSep : List PyStr := ["foo.png".toList, "f-1.png".toList]

end OrganiseDataset

namespace OrganiseDataset

theorem filterMap_if_fst (id : PyStr) :
    ∀ l : List (Nat × PyStr),
      l.filterMap (fun p => if startsWithL p.2 id then some p.1 else none) =
      (l.filter (fun p => startsWithL p.2 id)).map Prod.fst
  | [] => rfl
  | p :: l => by
    by_cases h : startsWithL p.2 id <;>
      simp [List.filterMap_cons, List.filter_cons, h, filterMap_if_fst id l]

theorem pairwise_fst_enum {α : Type} (l : List α) :
    l.enum.Pairwise (fun p q => p.1 < q.1) := by
  have h1 : List.map Prod.fst l.enum = List.range l.length := by
    rw [List.enum_eq_zip_range]
    exact List.map_fst_zip _ _ (by simp)
  have h2 : (List.map Prod.fst l.enum).Pairwise (· < ·) := by
    rw [h1]; exact List.pairwise_lt_range _
  exact List.pairwise_map.mp h2

theorem indicesFor_pairwise (files : List PyStr) (id : PyStr) :
    (indicesFor files id).Pairwise (· < ·) := by
  unfold indicesFor
  rw [filterMap_if_fst id]
  exact List.pairwise_map.mpr
    (List.Pairwise.sublist (List.filter_sublist _) (pairwise_fst_enum files))

theorem mem_indicesFor {files : List PyStr} {id : PyStr} {i : Nat} :
    i ∈ indicesFor files id ↔
      ∃ f, files[i]? = some f ∧ startsWithL f id = true := by
  unfold indicesFor
  constructor
  · intro h
    rcases List.mem_filterMap.mp h with ⟨p, hp, hsome⟩
    by_cases hc : startsWithL p.2 id
    · rw [if_pos hc] at hsome
      cases hsome
      exact ⟨p.2, List.mem_enum_iff_getElem?.mp hp, hc⟩
    · rw [if_neg hc] at hsome
      cases hsome
  · rintro ⟨f, hf, hs⟩
    exact List.mem_filterMap.mpr
      ⟨(i, f), List.mem_enum_iff_getElem?.mpr hf, by simp [hs]⟩

/-- **C6** (threshold boundary): in a two-frame camera sequence with both
frames decodable and equal representation shapes, a candidate whose
comparator score equals `min_score` exactly is retained and becomes the new
reference, while a score of `min_score - 1` marks the candidate
non-essential and leaves the reference unchanged. -/
theorem c6_threshold_boundary :
    (∀ (Image Rep : Type) (C : Comparator Image Rep)
       (imread : PyStr → Option Image) (blur : List Nat) (mca ms : Int)
       (files : List PyStr) (i j : Nat) (imgI imgJ : Image)
       (prev0 : Option Rep),
       j ≠ i →
       imread (files.getD i []) = some imgI →
       imread (files.getD j []) = some imgJ →
       C.shape (C.preprocess imgI blur) = C.shape (C.preprocess imgJ blur) →
       C.score (C.preprocess imgI blur) (C.preprocess imgJ blur) mca = ms →
       scanCamera C imread blur mca ms files [i, j] prev0 =
         Except.ok (some (C.preprocess imgJ blur), [])) ∧
    (∀ (Image Rep : Type) (C : Comparator Image Rep)
       (imread : PyStr → Option Image) (blur : List Nat) (mca ms : Int)
       (files : List PyStr) (i j : Nat) (imgI imgJ : Image)
       (prev0 : Option Rep),
       j ≠ i →
       imread (files.getD i []) = some imgI →
       imread (files.getD j []) = some imgJ →
       C.shape (C.preprocess imgI blur) = C.shape (C.preprocess imgJ blur) →
       C.score (C.preprocess imgI blur) (C.preprocess imgJ blur) mca = ms - 1 →
       scanCamera C imread blur mca ms files [i, j] prev0 =
         Except.ok (some (C.preprocess imgI blur), [j])) := by
  constructor
  · intro Image Rep C imread blur mca ms files i j imgI imgJ prev0
      hji hri hrj hsh hsc
    simp only [scanCamera, scanFrames, stepFrame, List.headD]
    rw [hri, hrj]
    simp [hji, hsh, hsc]
  · intro Image Rep C imread blur mca ms files i j imgI imgJ prev0
      hji hri hrj hsh hsc
    have hlt : ms - 1 < ms := by omega
    simp only [scanCamera, scanFrames, stepFrame, List.headD]
    rw [hri, hrj]
    simp [hji, hsh, hsc, hlt]

/-- Witness for C6: a concrete two-frame camera with constant score
`25000 = min_score` keeps the candidate; with constant score `24999`
it removes the candidate. -/
theorem c6_threshold_boundary_witness :
    scanCamera (cmpConstNat 25000) (fun _ => some 0) defaultBlur defaultMca
        25000 [] [0, 1] none = Except.ok (some 0, []) ∧
    scanCamera (cmpConstNat 24999) (fun _ => some 0) defaultBlur defaultMca
        25000 [] [0, 1] none = Except.ok (some 0, [1]) := by
  constructor
  · exact c6_threshold_boundary.1 Nat Nat (cmpConstNat 25000) (fun _ => some 0)
      defaultBlur defaultMca 25000 [] 0 1 0 0 none (by decide) rfl rfl rfl
      (by decide)
  · exact c6_threshold_boundary.2 Nat Nat (cmpConstNat 24999) (fun _ => some 0)
      defaultBlur defaultMca 25000 [] 0 1 0 0 none (by decide) rfl rfl rfl
      (by decide)

/-- **C7** (anchor on keep): for three decodable frames A, B, C of one
camera with equal representation shapes, if A↔B scores below the threshold
and A↔C scores at/above it, then B is removed and C — scored against A's
representation, not B's — is retained and becomes the reference. -/
theorem c7_anchor_on_keep :
    ∀ (Image Rep : Type) (Cm : Comparator Image Rep)
      (imread : PyStr → Option Image) (blur : List Nat) (mca ms : Int)
      (files : List PyStr) (a b c : Nat) (imgA imgB imgC : Image)
      (prev0 : Option Rep),
      b ≠ a → c ≠ a →
      imread (files.getD a []) = some imgA →
      imread (files.getD b []) = some imgB →
      imread (files.getD c []) = some imgC →
      Cm.shape (Cm.preprocess imgA blur) = Cm.shape (Cm.preprocess imgB blur) →
      Cm.shape (Cm.preprocess imgA blur) = Cm.shape (Cm.preprocess imgC blur) →
      Cm.score (Cm.preprocess imgA blur) (Cm.preprocess imgB blur) mca < ms →
      ¬ Cm.score (Cm.preprocess imgA blur) (Cm.preprocess imgC blur) mca < ms →
      scanCamera Cm imread blur mca ms files [a, b, c] prev0 =
        Except.ok (some (Cm.preprocess imgC blur), [b]) := by
  intro Image Rep Cm imread blur mca ms files a b c imgA imgB imgC prev0
    hba hca hra hrb hrc hshB hshC hlo hhi
  have hBC : Cm.shape (Cm.preprocess imgB blur) =
      Cm.shape (Cm.preprocess imgC blur) := by rw [← hshB, hshC]
  simp only [scanCamera, scanFrames, stepFrame, List.headD]
  rw [hra, hrb, hrc]
  simp [hba, hca, hshB, hshC, hBC, hlo, hhi]

/-- Witness for C7: a concrete three-frame camera where the middle frame
duplicates the first (score 0) and the third differs (score 30000). -/
theorem c7_anchor_on_keep_witness :
    scanCamera cmpEqNat
      (fun f => if f = "x".toList then some 1
                else if f = "y".toList then some 1 else some 2)
      defaultBlur defaultMca defaultMs
      ["x".toList, "y".toList, "z".toList] [0, 1, 2] none =
    Except.ok (some 2, [1]) :=
  c7_anchor_on_keep Nat Nat cmpEqNat
    (fun f => if f = "x".toList then some 1
              else if f = "y".toList then some 1 else some 2)
    defaultBlur defaultMca defaultMs
    ["x".toList, "y".toList, "z".toList] 0 1 2 1 1 2 none
    (by decide) (by decide) (by decide) (by decide) (by decide) rfl rfl
    (by decide) (by decide)

end OrganiseDataset

namespace OrganiseDataset

/-- **C1** (refuted by the code): on a directory where camera `a` has one
decodable file and camera `b`'s first file `b-1.png` fails to decode while
`b-2.png` decodes, camera `b`'s earliest decodable frame (index 2) is marked
non-essential: instead of being installed as `b`'s reference it is compared
against the reference left over from camera `a` (the code tests
`img_index == img_indices[0]`, not "no reference yet"). -/
theorem c1_earliest_decodable_removed :
    (get_camera_id_indices entriesAB).1 =
      [("a".toList, [0]), ("b".toList, [1, 2])] ∧
    readAB 7 ("b-1.png".toList) = none ∧
    readAB 7 ("b-2.png".toList) = some 7 ∧
    scanCams cmpEqNat (readAB 7) defaultBlur defaultMca defaultMs
        (get_camera_id_indices entriesAB).2 none []
        (get_camera_id_indices entriesAB).1 =
      Except.ok (some 7, [("a".toList, []), ("b".toList, [1, 2])]) := by
  refine ⟨?_, rfl, rfl, ?_⟩ <;> rfl

/-- **C2** (refuted by the code): two runs that differ only in camera `a`'s
file `a-1.png` (camera `b`'s files decode identically in both) yield
different removal lists for camera `b`: `[1, 2]` versus `[1]`.  The
`prev_frame` reference leaks from camera `a` into camera `b`'s scan. -/
theorem c2_cross_camera_interference :
    readAB 7 ("b-1.png".toList) = readAB 5 ("b-1.png".toList) ∧
    readAB 7 ("b-2.png".toList) = readAB 5 ("b-2.png".toList) ∧
    scanCams cmpEqNat (readAB 7) defaultBlur defaultMca defaultMs
        (get_camera_id_indices entriesAB).2 none []
        (get_camera_id_indices entriesAB).1 =
      Except.ok (some 7, [("a".toList, []), ("b".toList, [1, 2])]) ∧
    scanCams cmpEqNat (readAB 5) defaultBlur defaultMca defaultMs
        (get_camera_id_indices entriesAB).2 none []
        (get_camera_id_indices entriesAB).1 =
      Except.ok (some 7, [("a".toList, []), ("b".toList, [1])]) := by
  refine ⟨rfl, rfl, ?_, ?_⟩ <;> rfl

/-- **C5** (refuted by the code): when the first file of the first camera
fails to decode and the next file decodes, the decision loop raises
`UnboundLocalError` (the unbound Python local `prev_frame` is read), so the
decode failure aborts the whole scan instead of being contained. -/
theorem c5_decode_failure_aborts_scan :
    readTail ("a-1.png".toList) = none ∧
    readTail ("a-2.png".toList) = some 1 ∧
    remove_duplicates cmpEqNat readTail defaultBlur defaultMca defaultMs
        entriesA2 =
      Except.error "UnboundLocalError: prev_frame" := by
  refine ⟨rfl, rfl, ?_⟩; rfl

/-- Counterexample to **C3**: a run in which camera `a` has exactly 2
removed frames and camera `b` has 0 prints *two* report lines — the second
names camera `b` with count 0 — because `non_essential_data` holds an entry
(possibly empty) for every camera and `remove_ids` prints unconditionally. -/
theorem c3_zero_count_line_printed :
    scanCams (cmpConstNat 0) readAllB9 defaultBlur defaultMca defaultMs
        (get_camera_id_indices entriesRep).2 none []
        (get_camera_id_indices entriesRep).1 =
      Except.ok (some 9, [("a".toList, [1, 2]), ("b".toList, [])]) ∧
    (remove_duplicates (cmpConstNat 0) readAllB9 defaultBlur defaultMca
        defaultMs entriesRep).map printsOf =
      Except.ok [("a".toList, 2), ("b".toList, 0)] := by
  refine ⟨?_, ?_⟩ <;> rfl

theorem printsOf_append (a b : List Event) :
    printsOf (a ++ b) = printsOf a ++ printsOf b := by
  induction a with
  | nil => rfl
  | cons e a ih => cases e <;> simp [printsOf, ih]

theorem deletesOf_append (a b : List Event) :
    deletesOf (a ++ b) = deletesOf a ++ deletesOf b := by
  induction a with
  | nil => rfl
  | cons e a ih => cases e <;> simp [deletesOf, ih]

theorem printsOf_deletes (files : List PyStr) (l : List Nat) :
    printsOf (l.map (fun i => Event.deleteFile (files.getD i []))) = [] := by
  induction l with
  | nil => rfl
  | cons i l ih => simpa [printsOf] using ih

theorem deletesOf_deletes (files : List PyStr) (l : List Nat) :
    deletesOf (l.map (fun i => Event.deleteFile (files.getD i []))) =
      l.map (fun i => files.getD i []) := by
  induction l with
  | nil => rfl
  | cons i l ih => simpa [deletesOf] using ih

theorem remove_ids_cons (files : List PyStr) (pr : PyStr × List Nat)
    (data : List (PyStr × List Nat)) :
    remove_ids files (pr :: data) =
      (pr.2.map (fun i => Event.deleteFile (files.getD i [])) ++
        [Event.printLine pr.1 pr.2.length]) ++ remove_ids files data := by
  simp [remove_ids, List.flatMap_cons, List.append_assoc]

/-- **C3 amended**: the removal pass prints exactly one report line per
camera appearing in the removal mapping — including cameras with an empty
removal list, which are reported with count 0 — and performs one deletion
per removed index (so an empty removal list still triggers no filesystem
delete call); in particular with one camera having exactly 2 removals and
another 0, exactly two lines are printed, the first camera with count 2 and
the second with count 0. -/
theorem printsOf_remove_ids (files : List PyStr)
    (data : List (PyStr × List Nat)) :
    printsOf (remove_ids files data) =
      data.map (fun pr => (pr.1, pr.2.length)) := by
  induction data with
  | nil => rfl
  | cons pr data ih =>
    rw [remove_ids_cons, printsOf_append, printsOf_append, printsOf_deletes,
      ih]
    simp [printsOf]

theorem deletesOf_remove_ids_length (files : List PyStr)
    (data : List (PyStr × List Nat)) :
    (deletesOf (remove_ids files data)).length =
      (data.map (fun pr => pr.2.length)).sum := by
  induction data with
  | nil => rfl
  | cons pr data ih =>
    rw [remove_ids_cons, deletesOf_append, deletesOf_append,
      deletesOf_deletes]
    simp [deletesOf, ih]

theorem c3_report_line_per_camera :
    (∀ (files : List PyStr) (data : List (PyStr × List Nat)),
       printsOf (remove_ids files data) =
         data.map (fun pr => (pr.1, pr.2.length)) ∧
       (deletesOf (remove_ids files data)).length =
         (data.map (fun pr => pr.2.length)).sum) ∧
    (∀ (files : List PyStr) (cam1 : PyStr) (l1 : List Nat) (cam2 : PyStr),
       l1.length = 2 →
       printsOf (remove_ids files [(cam1, l1), (cam2, [])]) =
         [(cam1, 2), (cam2, 0)]) := by
  refine ⟨fun files data =>
    ⟨printsOf_remove_ids files data, deletesOf_remove_ids_length files data⟩,
    ?_⟩
  intro files cam1 l1 cam2 h
  rw [printsOf_remove_ids]
  simp [h]

/-- Witness for C3 amended: the 2-removal/0-removal report evaluated on a
concrete removal mapping. -/
theorem c3_report_line_per_camera_witness :
    printsOf (remove_ids [] [("a".toList, [1, 2]), ("b".toList, [])]) =
      [("a".toList, 2), ("b".toList, 0)] :=
  c3_report_line_per_camera.2 [] ("a".toList) [1, 2] ("b".toList) rfl

/-- **C9**: a `.png` filename containing neither `-` nor `_` is nevertheless
included in a camera's index list (hence scanned and possibly deleted)
whenever some existing camera id is a leading segment of it, because
grouping assigns indices by `filename.startswith(camera_id)`. -/
theorem c9_separatorless_file_grouped :
    ∀ (entries : List PyStr) (i : Nat) (f x : PyStr),
      (imageFilesOf entries)[i]? = some f →
      f.contains '-' = false →
      f.contains '_' = false →
      x ∈ cameraIds (imageFilesOf entries) →
      startsWithL f x = true →
      (x, indicesFor (imageFilesOf entries) x) ∈
        (get_camera_id_indices entries).1 ∧
      i ∈ indicesFor (imageFilesOf entries) x := by
  intro entries i f x hget hnd hnu hx hsw
  constructor
  · exact List.mem_map.mpr ⟨x, hx, rfl⟩
  · exact mem_indicesFor.mpr ⟨f, hget, hsw⟩

/-- Witness for C9: in `entriesNoSep` the separator-free file `foo.png`
(index 1 of the sorted list) lands in camera `f`'s index list. -/
theorem c9_separatorless_file_grouped_witness :
    ("f".toList, indicesFor (imageFilesOf entriesNoSep) "f".toList) ∈
      (get_camera_id_indices entriesNoSep).1 ∧
    1 ∈ indicesFor (imageFilesOf entriesNoSep) "f".toList :=
  c9_separatorless_file_grouped entriesNoSep 1 ("foo.png".toList)
    ("f".toList) (by decide) (by decide) (by decide) (by decide) (by decide)

end OrganiseDataset

namespace OrganiseDataset

theorem cameraIds_nodup (files : List PyStr) : (cameraIds files).Nodup := by
  unfold cameraIds
  exact ((List.perm_insertionSort _ _).nodup_iff).mpr (List.nodup_dedup _)

theorem countP_eq_one_of_nodup {α : Type} [DecidableEq α] {l : List α} {a : α}
    (hn : l.Nodup) (ha : a ∈ l) :
    l.countP (fun x => decide (x = a)) = 1 := by
  induction l with
  | nil => cases ha
  | cons b l ih =>
    rw [List.countP_cons]
    rcases List.mem_cons.mp ha with rfl | hmem
    · rw [List.countP_eq_zero.mpr ?_]
      · simp
      · intro x hx
        have := (List.nodup_cons.mp hn).1
        simp only [decide_eq_true_eq]
        intro hxa
        exact this (hxa ▸ hx)
    · have hba : ¬ (b = a) := fun h => (List.nodup_cons.mp hn).1 (h ▸ hmem)
      rw [ih (List.nodup_cons.mp hn).2 hmem]
      simp [hba]

theorem mem_cameraIds {files : List PyStr} {x : PyStr} :
    x ∈ cameraIds files ↔ ∃ f ∈ files, cameraIdOf f = some x := by
  unfold cameraIds
  rw [List.mem_insertionSort, List.mem_dedup, List.mem_filterMap]

/-- Counterexample to **C4**: the directory `[c1-a.png, c10-b.png]` uses the
separator `-` consistently, yet index 1 (`c10-b.png`) appears in *both*
camera `c1`'s and camera `c10`'s index lists, because membership is decided
by `filename.startswith(camera_id)` and `c1` leads `c10-b.png`.  The
grouping is not a partition. -/
theorem c4_index_in_two_cameras :
    ("c1-a.png".toList).contains '-' = true ∧
    ("c1-a.png".toList).contains '_' = false ∧
    ("c10-b.png".toList).contains '-' = true ∧
    ("c10-b.png".toList).contains '_' = false ∧
    (get_camera_id_indices entriesC4).1 =
      [("c1".toList, [0, 1]), ("c10".toList, [1])] ∧
    ¬ isPartitionBy (get_camera_id_indices entriesC4).1
        (get_camera_id_indices entriesC4).2.length := by
  refine ⟨rfl, rfl, rfl, rfl, rfl, ?_⟩
  intro h
  have := h.1 1 (by decide)
  revert this
  decide

/-- **C4 amended**: the grouping is a partition of the sorted filename list
under the (necessary) proviso that `startswith` agrees with the derived
camera prefix — i.e. every sorted `.png` filename has a separator, and a
filename starts with a derived camera id exactly when that id is its own
camera prefix (ruling out one camera id being a leading segment of another
camera's filename, as with `c1`/`c10`). -/
theorem c4_grouping_partition :
    ∀ entries : List PyStr,
      (∀ f ∈ imageFilesOf entries, (cameraIdOf f).isSome = true) →
      (∀ f ∈ imageFilesOf entries, ∀ x ∈ cameraIds (imageFilesOf entries),
         (startsWithL f x = true ↔ cameraIdOf f = some x)) →
      isPartitionBy (get_camera_id_indices entries).1
        (imageFilesOf entries).length := by
  intro entries h1 h2
  constructor
  · intro i hi
    have hget : (imageFilesOf entries)[i]? =
        some ((imageFilesOf entries).get ⟨i, hi⟩) := List.getElem?_eq_getElem hi
    have hmem : (imageFilesOf entries).get ⟨i, hi⟩ ∈ imageFilesOf entries :=
      List.get_mem _ _ hi
    obtain ⟨x0, hx0⟩ : ∃ x,
        cameraIdOf ((imageFilesOf entries).get ⟨i, hi⟩) = some x :=
      Option.isSome_iff_exists.mp (h1 _ hmem)
    have hx0mem : x0 ∈ cameraIds (imageFilesOf entries) :=
      mem_cameraIds.mpr ⟨_, hmem, hx0⟩
    show ((cameraIds (imageFilesOf entries)).map
        (fun x => (x, indicesFor (imageFilesOf entries) x))).countP
        (fun pr => decide (i ∈ pr.2)) = 1
    rw [List.countP_map]
    have hcg : ∀ x ∈ cameraIds (imageFilesOf entries),
        ((fun pr : PyStr × List Nat => decide (i ∈ pr.2)) ∘
          (fun x => (x, indicesFor (imageFilesOf entries) x))) x = true ↔
        decide (x = x0) = true := by
      intro x hx
      simp only [Function.comp_apply, decide_eq_true_eq]
      rw [mem_indicesFor]
      constructor
      · rintro ⟨f, hf, hs⟩
        rw [hget] at hf
        cases hf
        have hcam := (h2 _ hmem x hx).mp hs
        rw [hx0] at hcam
        exact (Option.some.inj hcam).symm
      · rintro rfl
        exact ⟨_, hget, (h2 _ hmem x hx).mpr hx0⟩
    rw [List.countP_congr hcg]
    exact countP_eq_one_of_nodup (cameraIds_nodup _) hx0mem
  · intro pr hpr i hipr
    obtain ⟨x, _, rfl⟩ := List.mem_map.mp hpr
    obtain ⟨f, hf, _⟩ := mem_indicesFor.mp hipr
    obtain ⟨hlt, _⟩ := List.getElem?_eq_some.mp hf
    exact hlt

/-- Witness for C4 amended: the two-camera directory `[a-1.png, b-1.png]`
satisfies both provisos and its grouping partitions the two indices. -/
theorem c4_grouping_partition_witness :
    isPartitionBy
      (get_camera_id_indices ["a-1.png".toList, "b-1.png".toList]).1
      (imageFilesOf ["a-1.png".toList, "b-1.png".toList]).length :=
  c4_grouping_partition ["a-1.png".toList, "b-1.png".toList]
    (by decide) (by decide)

end OrganiseDataset

namespace OrganiseDataset

theorem stepFrame_rem {Image Rep : Type} (C : Comparator Image Rep)
    (imread : PyStr → Option Image) (blur : List Nat) (mca ms : Int)
    (files : List PyStr) (firstIdx : Nat) (st : Option Rep × List Nat)
    (i : Nat) (st' : Option Rep × List Nat)
    (h : stepFrame C imread blur mca ms files firstIdx st i = Except.ok st') :
    st'.2 = st.2 ∨ st'.2 = st.2 ++ [i] := by
  unfold stepFrame at h
  split at h
  · injection h with h; subst h; exact Or.inr rfl
  · split at h
    · injection h with h; subst h; exact Or.inl rfl
    · split at h
      · cases h
      · dsimp only at h
        split at h <;> split at h <;>
          (injection h with h; subst h; simp)

theorem scanFrames_rem {Image Rep : Type} (C : Comparator Image Rep)
    (imread : PyStr → Option Image) (blur : List Nat) (mca ms : Int)
    (files : List PyStr) (firstIdx : Nat) (idxs : List Nat) :
    ∀ (st out : Option Rep × List Nat),
      scanFrames C imread blur mca ms files firstIdx st idxs =
        Except.ok out →
      ∃ t, out.2 = st.2 ++ t ∧ t.Sublist idxs := by
  induction idxs with
  | nil =>
    intro st out h
    injection h with h
    subst h
    exact ⟨[], by simp, List.nil_sublist _⟩
  | cons i rest ih =>
    intro st out h
    unfold scanFrames at h
    cases hstep : stepFrame C imread blur mca ms files firstIdx st i with
    | error e => rw [hstep] at h; cases h
    | ok st' =>
      rw [hstep] at h
      obtain ⟨t, ht, hsub⟩ := ih st' out h
      rcases stepFrame_rem C imread blur mca ms files firstIdx st i st'
          hstep with h2 | h2
      · exact ⟨t, by rw [ht, h2], hsub.cons _⟩
      · refine ⟨i :: t, ?_, hsub.cons₂ _⟩
        rw [ht, h2, List.append_assoc]
        rfl

theorem scanCams_out {Image Rep : Type} (C : Comparator Image Rep)
    (imread : PyStr → Option Image) (blur : List Nat) (mca ms : Int)
    (files : List PyStr) (cams : List (PyStr × List Nat)) :
    ∀ (prev : Option Rep) (acc : List (PyStr × List Nat)) (p : Option Rep)
      (out : List (PyStr × List Nat)),
      scanCams C imread blur mca ms files prev acc cams = Except.ok (p, out) →
      ∀ pr ∈ out, pr ∈ acc ∨ ∃ idxs p0 p1, (pr.1, idxs) ∈ cams ∧
        scanCamera C imread blur mca ms files idxs p0 =
          Except.ok (p1, pr.2) := by
  induction cams with
  | nil =>
    intro prev acc p out h pr hpr
    injection h with h
    injection h with h1 h2
    subst h2
    exact Or.inl hpr
  | cons cam rest ih =>
    intro prev acc p out h pr hpr
    unfold scanCams at h
    cases hc : scanCamera C imread blur mca ms files cam.2 prev with
    | error e => rw [hc] at h; cases h
    | ok pr' =>
      obtain ⟨prev', rem⟩ := pr'
      rw [hc] at h
      rcases ih prev' (acc ++ [(cam.1, rem)]) p out h pr hpr with
        hin | ⟨idxs, p0, p1, hmem, hsc⟩
      · rcases List.mem_append.mp hin with h1 | h2
        · exact Or.inl h1
        · have hpr2 : pr = (cam.1, rem) := by simpa using h2
          subst hpr2
          exact Or.inr ⟨cam.2, prev, prev', List.mem_cons_self _ _, hc⟩
      · exact Or.inr ⟨idxs, p0, p1, List.mem_cons_of_mem _ hmem, hsc⟩

theorem scanCams_fst {Image Rep : Type} (C : Comparator Image Rep)
    (imread : PyStr → Option Image) (blur : List Nat) (mca ms : Int)
    (files : List PyStr) (cams : List (PyStr × List Nat)) :
    ∀ (prev : Option Rep) (acc : List (PyStr × List Nat)) (p : Option Rep)
      (out : List (PyStr × List Nat)),
      scanCams C imread blur mca ms files prev acc cams = Except.ok (p, out) →
      out.map Prod.fst = acc.map Prod.fst ++ cams.map Prod.fst := by
  induction cams with
  | nil =>
    intro prev acc p out h
    injection h with h
    injection h with h1 h2
    subst h2
    simp
  | cons cam rest ih =>
    intro prev acc p out h
    unfold scanCams at h
    cases hc : scanCamera C imread blur mca ms files cam.2 prev with
    | error e => rw [hc] at h; cases h
    | ok pr' =>
      obtain ⟨prev', rem⟩ := pr'
      rw [hc] at h
      rw [ih prev' (acc ++ [(cam.1, rem)]) p out h]
      simp

theorem remove_ids_segment (files : List PyStr)
    (data : List (PyStr × List Nat)) :
    ∀ pr ∈ data, ∃ pre post, remove_ids files data =
      pre ++ (pr.2.map (fun i => Event.deleteFile (files.getD i [])) ++
        [Event.printLine pr.1 pr.2.length]) ++ post := by
  induction data with
  | nil => intro pr h; cases h
  | cons q data ih =>
    intro pr h
    rcases List.mem_cons.mp h with rfl | hmem
    · exact ⟨[], remove_ids files data, by rw [remove_ids_cons]; simp⟩
    · obtain ⟨pre, post, heq⟩ := ih pr hmem
      refine ⟨(q.2.map (fun i => Event.deleteFile (files.getD i [])) ++
        [Event.printLine q.1 q.2.length]) ++ pre, post, ?_⟩
      rw [remove_ids_cons, heq]
      simp [List.append_assoc]

theorem cameraIds_sorted (files : List PyStr) :
    (cameraIds files).Pairwise (· < ·) := by
  have hs : (cameraIds files).Pairwise (· ≤ ·) := by
    unfold cameraIds
    exact List.sorted_insertionSort _ _
  have hn : (cameraIds files).Pairwise (· ≠ ·) := cameraIds_nodup files
  exact (hs.and hn).imp (fun h => lt_of_le_of_ne h.1 h.2)

/-- **C8**: for every camera the grouped index list is strictly increasing;
every removal list produced by the decision loop is strictly increasing (it
is appended while walking the strictly increasing index list); and the
removal pass emits each camera's deletions as a contiguous block exactly in
that list order. -/
theorem c8_ascending_removals :
    ∀ (Image Rep : Type) (C : Comparator Image Rep)
      (imread : PyStr → Option Image) (blur : List Nat) (mca ms : Int)
      (entries : List PyStr) (p : Option Rep)
      (ned : List (PyStr × List Nat)),
      scanCams C imread blur mca ms (get_camera_id_indices entries).2 none []
          (get_camera_id_indices entries).1 = Except.ok (p, ned) →
      (∀ pr ∈ (get_camera_id_indices entries).1, pr.2.Pairwise (· < ·)) ∧
      (∀ pr ∈ ned, pr.2.Pairwise (· < ·) ∧
        ∃ pre post, remove_ids (get_camera_id_indices entries).2 ned =
          pre ++ (pr.2.map (fun i =>
              Event.deleteFile ((get_camera_id_indices entries).2.getD i [])) ++
            [Event.printLine pr.1 pr.2.length]) ++ post) := by
  intro Image Rep C imread blur mca ms entries p ned h
  constructor
  · intro pr hpr
    obtain ⟨x, _, hxeq⟩ := List.mem_map.mp hpr
    rw [← hxeq]
    exact indicesFor_pairwise _ _
  · intro pr hpr
    refine ⟨?_, remove_ids_segment _ _ pr hpr⟩
    rcases scanCams_out C imread blur mca ms _ _ none [] p ned h pr hpr with
      hin | ⟨idxs, p0, p1, hmem, hsc⟩
    · cases hin
    · obtain ⟨t, ht, hsub⟩ := scanFrames_rem C imread blur mca ms _
        (idxs.headD 0) idxs (p0, []) (p1, pr.2) hsc
      have hteq : pr.2 = t := by simpa using ht
      have hidx : idxs.Pairwise (· < ·) := by
        obtain ⟨x, _, hxeq⟩ := List.mem_map.mp hmem
        have : idxs = indicesFor (imageFilesOf entries) x := by
          have := congrArg Prod.snd hxeq
          simpa using this.symm
        rw [this]
        exact indicesFor_pairwise _ _
      rw [hteq]
      exact List.Pairwise.sublist hsub hidx

/-- Witness for C8: the concrete run on `entriesRep` (camera `a` removes
indices 1 and 2, camera `b` removes nothing). -/
theorem c8_ascending_removals_witness :
    (∀ pr ∈ (get_camera_id_indices entriesRep).1, pr.2.Pairwise (· < ·)) ∧
    (∀ pr ∈ [("a".toList, [1, 2]), ("b".toList, ([] : List Nat))],
      pr.2.Pairwise (· < ·) ∧
      ∃ pre post, remove_ids (get_camera_id_indices entriesRep).2
          [("a".toList, [1, 2]), ("b".toList, ([] : List Nat))] =
        pre ++ (pr.2.map (fun i =>
            Event.deleteFile ((get_camera_id_indices entriesRep).2.getD i [])) ++
          [Event.printLine pr.1 pr.2.length]) ++ post) :=
  c8_ascending_removals Nat Nat (cmpConstNat 0) readAllB9 defaultBlur
    defaultMca defaultMs entriesRep (some 9)
    [("a".toList, [1, 2]), ("b".toList, [])] rfl

/-- **C10**: cameras are grouped, scanned, reported and deleted in ascending
lexicographic order of camera identifier: the grouping's keys are strictly
sorted, the scan's removal mapping lists cameras in exactly the grouping
order, and the removal pass prints one line per camera in that same
order. -/
theorem c10_lexicographic_camera_order :
    ∀ (Image Rep : Type) (C : Comparator Image Rep)
      (imread : PyStr → Option Image) (blur : List Nat) (mca ms : Int)
      (entries : List PyStr) (p : Option Rep)
      (ned : List (PyStr × List Nat)),
      scanCams C imread blur mca ms (get_camera_id_indices entries).2 none []
          (get_camera_id_indices entries).1 = Except.ok (p, ned) →
      ((get_camera_id_indices entries).1.map Prod.fst).Pairwise (· < ·) ∧
      ned.map Prod.fst = (get_camera_id_indices entries).1.map Prod.fst ∧
      printsOf (remove_ids (get_camera_id_indices entries).2 ned) =
        ned.map (fun pr => (pr.1, pr.2.length)) := by
  intro Image Rep C imread blur mca ms entries p ned h
  refine ⟨?_, ?_, printsOf_remove_ids _ _⟩
  · have : (get_camera_id_indices entries).1.map Prod.fst =
        cameraIds (imageFilesOf entries) := by
      simp [get_camera_id_indices, List.map_map, Function.comp_def]
    rw [this]
    exact cameraIds_sorted _
  · have := scanCams_fst C imread blur mca ms _ _ none [] p ned h
    simpa using this

/-- Witness for C10: the concrete run on `entriesRep` — cameras `a` then
`b`, in sorted order, in grouping, scan output and report alike. -/
theorem c10_lexicographic_camera_order_witness :
    ((get_camera_id_indices entriesRep).1.map Prod.fst).Pairwise (· < ·) ∧
    ([("a".toList, [1, 2]), ("b".toList, ([] : List Nat))].map Prod.fst) =
      (get_camera_id_indices entriesRep).1.map Prod.fst ∧
    printsOf (remove_ids (get_camera_id_indices entriesRep).2
        [("a".toList, [1, 2]), ("b".toList, ([] : List Nat))]) =
      [("a".toList, [1, 2]), ("b".toList, ([] : List Nat))].map
        (fun pr => (pr.1, pr.2.length)) :=
  c10_lexicographic_camera_order Nat Nat (cmpConstNat 0) readAllB9
    defaultBlur defaultMca defaultMs entriesRep (some 9)
    [("a".toList, [1, 2]), ("b".toList, [])] rfl

end OrganiseDataset
